import Mathlib

/-! Verification of the market-scoring and financial-summary core of the
akiya-revolution demo application (src/app.py).

Python dicts are embedded as association lists in insertion order, looked
up with `lookup`; Python floats are embedded as rationals; Python
`float(inf)` sentinels are embedded as `⊤` in `WithTop ℚ`; Python runtime
exceptions (`KeyError`, `ZeroDivisionError`) are embedded with `Except`. -/

namespace Akiya

/-- Runtime errors that the Python scoring code can raise. -/
inductive PyError where
  | keyError : PyError
  | zeroDivisionError : PyError
  deriving DecidableEq, Repr

/-- Dict lookup on an association list: the first binding of the key, if
any — the embedding of Python `d[k]` / `d.get(k, default)` on the dicts of
app.py (whose keys are unique, making the first binding the only one). -/
def lookup {α : Type} (k : String) : List (String × α) → Option α
  | [] => none
  | kv :: rest => if k = kv.1 then some kv.2 else lookup k rest

/-- MarketFactors from app.py: fields area_type, factors (a dict, embedded as
an association list in insertion order), epsilon. -/
structure MarketFactors where
  area_type : String
  factors : List (String × ℚ)
  epsilon : ℚ

/-- FACTOR_RANGES table of MarketPotentialCalculator. -/
def FACTOR_RANGES : List (String × List (String × ℚ)) :=
  [("kamakura", [("population", 5000), ("distance_from_station", 3200)]),
   ("hayama", [("population", 2500), ("distance_from_station", 3200)]),
   ("zushi", [("population", 3000), ("distance_from_station", 3200)])]

/-- WEIGHTS table of MarketPotentialCalculator. -/
def WEIGHTS : List (String × List (String × List (String × ℚ))) :=
  [("kamakura",
    [("cafe", [("population", 0.4), ("distance_from_station", 0.2)]),
     ("accommodation", [("population", 0.2), ("distance_from_station", 0.2)]),
     ("shareAtelier", [("population", 0.25), ("distance_from_station", 0.25)])]),
   ("hayama",
    [("cafe", [("population", 0.2), ("distance_from_station", 0.2)]),
     ("accommodation", [("population", 0.4), ("distance_from_station", 0.1)]),
     ("shareAtelier", [("population", 0.25), ("distance_from_station", 0.25)])]),
   ("zushi",
    [("cafe", [("population", 0.2), ("distance_from_station", 0.2)]),
     ("accommodation", [("population", 0.4), ("distance_from_station", 0.1)]),
     ("shareAtelier", [("population", 0.25), ("distance_from_station", 0.25)])])]

/-- MarketPotentialCalculator._normalize_factor.  The source indexes
`cls.FACTOR_RANGES[area_type]` with brackets, so an unknown area_type raises
KeyError; `ranges.get(factor_name, 0)` defaults the reference maximum to 0,
and a division by that 0 raises ZeroDivisionError (in the distance branch the
division is only evaluated when `value < max_val`). -/
def normalize_factor (area_type factor_name : String) (value : ℚ) :
    Except PyError ℚ :=
  match lookup area_type FACTOR_RANGES with
  | none => .error .keyError
  | some ranges =>
    let max_val := (lookup factor_name ranges).getD 0
    if factor_name = "distance_from_station" then
      if value < max_val then
        if max_val = 0 then .error .zeroDivisionError
        else .ok (max 0 (1 - value / max_val))
      else .ok 0
    else
      if max_val = 0 then .error .zeroDivisionError
      else .ok (min 1 (value / max_val))

/-- The generator sum inside MarketPotentialCalculator.calculate:
`weights.get(f, 0) * _normalize_factor(area_type, f, v)` accumulated over the
factors dict; the first exception raised by a normalization aborts the sum. -/
def weighted_sum (area_type : String) (weights : List (String × ℚ)) :
    List (String × ℚ) → Except PyError ℚ
  | [] => .ok 0
  | fv :: rest =>
    match normalize_factor area_type fv.1 fv.2 with
    | .error e => .error e
    | .ok n =>
      match weighted_sum area_type weights rest with
      | .error e => .error e
      | .ok s => .ok ((lookup fv.1 weights).getD 0 * n + s)

/-- MarketPotentialCalculator.calculate.  `cls.WEIGHTS[factors.area_type]`
uses bracket indexing (KeyError on unknown area_type);
`.get(business_type, dict())` defaults to an empty weight dict. -/
def calculate (factors : MarketFactors) (business_type : String) :
    Except PyError ℚ :=
  match lookup factors.area_type WEIGHTS with
  | none => .error .keyError
  | some wt =>
    (weighted_sum factors.area_type ((lookup business_type wt).getD [])
        factors.factors).map (fun s => s + factors.epsilon)

/-- Business from app.py; field order: name, initial_investment, users,
unit_price, other_revenue, costs. -/
structure Business where
  name : String
  initial_investment : ℚ
  users : ℚ
  unit_price : ℚ
  other_revenue : ℚ
  costs : List (String × ℚ)

/-- Python `int()` applied to a float truncates toward zero. -/
def pyInt (x : ℚ) : ℤ := if 0 ≤ x then ⌊x⌋ else ⌈x⌉

/-- Business.calc_monthly_revenue:
`int(self.users * self.unit_price * market_score + self.other_revenue)`. -/
def Business.calc_monthly_revenue (b : Business) (market_score : ℚ) : ℤ :=
  pyInt (b.users * b.unit_price * market_score + b.other_revenue)

/-- Business.calc_monthly_cost: `sum(self.costs.values())`. -/
def Business.calc_monthly_cost (b : Business) : ℚ :=
  (b.costs.map Prod.snd).sum

/-- The result record produced by Business.summary_dict; field order: name,
market_score, initial_investment, monthly_revenue, monthly_cost,
monthly_profit, profit_ratio_percent, payback_period (⊤ is float(inf)). -/
structure Summary where
  name : String
  market_score : ℚ
  initial_investment : ℚ
  monthly_revenue : ℤ
  monthly_cost : ℚ
  monthly_profit : ℚ
  profit_ratio_percent : ℚ
  payback_period : WithTop ℚ

/-- Business.summary_dict.  The profit-ratio guard is Python truthiness of
monthly_cost (nonzero), and the payback guard is truthiness of monthly_profit,
so a negative profit takes the division branch. -/
def Business.summary_dict (b : Business) (market_score : ℚ) : Summary :=
  let monthly_revenue := b.calc_monthly_revenue market_score
  let monthly_cost := b.calc_monthly_cost
  let monthly_profit : ℚ := (monthly_revenue : ℚ) - monthly_cost
  ⟨b.name, market_score, b.initial_investment, monthly_revenue, monthly_cost,
    monthly_profit,
    if monthly_cost ≠ 0 then monthly_profit / monthly_cost * 100 else 0,
    if monthly_profit ≠ 0
      then (((b.initial_investment / monthly_profit) / 12 : ℚ) : WithTop ℚ)
      else ⊤⟩

/-- Python `max(l, key)` on a nonempty list: scan left to right, replace the
current best only when the new key is strictly greater, so the first maximum
wins. -/
def pyMaxBy {α β : Type} [LinearOrder β] (key : α → β) (best : α) :
    List α → α
  | [] => best
  | x :: xs => pyMaxBy key (if key best < key x then x else best) xs

/-- Python `min(l, key)` on a nonempty list: scan left to right, replace the
current best only when the new key is strictly smaller, so the first minimum
wins. -/
def pyMinBy {α β : Type} [LinearOrder β] (key : α → β) (best : α) :
    List α → α
  | [] => best
  | x :: xs => pyMinBy key (if key x < key best then x else best) xs

/-- Rounding to the nearest integer with ties to the even integer — the
rounding Python's fixed-point float formatting applies at the last kept
digit. -/
def roundHalfEven (x : ℚ) : ℤ :=
  if x - ⌊x⌋ < 1/2 then ⌊x⌋
  else if 1/2 < x - ⌊x⌋ then ⌊x⌋ + 1
  else if ⌊x⌋ % 2 = 0 then ⌊x⌋ else ⌊x⌋ + 1

/-- The format/parse round-trip at d decimal digits that summary_dict's
f-string formatting (lines 184-185) followed by the float() parse on lines
309-310 applies to a finite value: round to d decimals, half to even. -/
def round_fixed (d : ℕ) (x : ℚ) : ℚ :=
  (roundHalfEven (x * 10 ^ d) : ℚ) / 10 ^ d

/-- The key that line 309 compares: the stored `f"{profit_ratio:.1f}%"`
string parsed back with float(), i.e. the profit ratio rounded to 1 decimal,
not the exact ratio. -/
def profit_key (s : Summary) : ℚ := round_fixed 1 s.profit_ratio_percent

/-- The key that line 310 compares: the stored `f"{payback_period:.2f}年"`
string parsed back with float(), i.e. the payback rounded to 2 decimals
("inf" parsing back to infinity). -/
def payback_key (s : Summary) : WithTop ℚ :=
  WithTop.map (round_fixed 2) s.payback_period

/-- The caller-level selection `max(results, key=...)` (line 309). -/
def best_profit : List Summary → Option Summary
  | [] => none
  | r :: rs => some (pyMaxBy profit_key r rs)

/-- The caller-level selection `min(results, key=...)` (line 310). -/
def best_payback : List Summary → Option Summary
  | [] => none
  | r :: rs => some (pyMinBy payback_key r rs)

/-- The three business types that appear in the permission table, in the
insertion order of the Python dicts. -/
inductive Biz where
  | cafe : Biz
  | shareAtelier : Biz
  | accommodation : Biz
  deriving DecidableEq, Repr

/-- Dict iteration order of each per-category permission dict. -/
def bizList : List Biz := [.cafe, .shareAtelier, .accommodation]

/-- Per-category maximum floor areas: caps for cafe, shareAtelier,
accommodation in that order; ⊤ embeds float(inf). -/
def caps (c s a : WithTop ℚ) : Biz → WithTop ℚ
  | .cafe => c
  | .shareAtelier => s
  | .accommodation => a

/-- The permissions table of check_building_permissions. -/
def permissions : List (String × (Biz → WithTop ℚ)) :=
  [("第１種低層住居専用地域", caps 150 150 0),
   ("第２種低層住居専用地域", caps 150 0 0),
   ("第１種中高層住居専用地域", caps 500 150 0),
   ("第２種中高層住居専用地域", caps 1500 150 0),
   ("第１種住居地域", caps 3000 3000 3000),
   ("第２種住居地域", caps 10000 3000 10000),
   ("準住居地域", caps 10000 3000 0),
   ("近隣商業地域", caps ⊤ ⊤ ⊤),
   ("商業地域", caps ⊤ ⊤ ⊤),
   ("準工業地域", caps ⊤ ⊤ ⊤),
   ("工業地域", caps ⊤ ⊤ 0),
   ("工業専用地域", caps 0 ⊤ 0)]

/-- check_building_permissions: `permissions.get(youto_chiiki, dict())` never
raises, and the comprehension keeps a business iff `area_size <= max_size`.
The argument may be the None returned by a failed zoning lookup. -/
def check_building_permissions (youto_chiiki : Option String) (area_size : ℚ) :
    List Biz :=
  match youto_chiiki with
  | none => []
  | some s =>
    match lookup s permissions with
    | none => []
    | some tbl =>
      bizList.filter (fun b => decide ((area_size : WithTop ℚ) ≤ tbl b))

/-- Spec-side total normalization, written from the spec's words for the
refinement claim: look up the max_reference for (area_type, factor_name), an
absent entry giving contribution 0; distance values are inverted and clamped
at 0, other factors clamped at 1. -/
def normalize_spec (area_type factor_name : String) (value : ℚ) : ℚ :=
  match (lookup area_type FACTOR_RANGES).bind (lookup factor_name) with
  | none => 0
  | some m =>
    if factor_name = "distance_from_station" then
      if value < m then max 0 (1 - value / m) else 0
    else min 1 (value / m)

/-- Spec-side weight for (area_type, business_type, factor_name), defaulting
to 0 at every missing level, as the spec words it. -/
def weight_of (area_type business_type factor_name : String) : ℚ :=
  (lookup factor_name
    ((lookup business_type
      ((lookup area_type WEIGHTS).getD [])).getD [])).getD 0

/-- Spec-side score, written from the spec's words for the refinement claim:
sum over the supplied factors of weight × normalized value, plus epsilon. -/
def score_spec (factors : MarketFactors) (business_type : String) : ℚ :=
  (factors.factors.map (fun fv =>
      weight_of factors.area_type business_type fv.1
        * normalize_spec factors.area_type fv.1 fv.2)).sum
    + factors.epsilon

/-! Theorems. -/

/-- C6: profit_ratio_percent is monthly_profit / monthly_cost × 100 when the
monthly cost is nonzero, and exactly 0 when the monthly cost is zero,
regardless of revenue. -/
theorem summary_profit_ratio_percent (b : Business) (s : ℚ) :
    (b.summary_dict s).profit_ratio_percent =
      if (b.summary_dict s).monthly_cost ≠ 0
      then (b.summary_dict s).monthly_profit / (b.summary_dict s).monthly_cost * 100
      else 0 := rfl

/-- C5: with non-negative users, unit price, other revenue and market score,
the monthly revenue is the floor of users × unit_price × market_score +
other_revenue (Python int() truncation coincides with floor on
non-negatives). -/
theorem calc_monthly_revenue_floor (b : Business) (s : ℚ)
    (hu : 0 ≤ b.users) (hp : 0 ≤ b.unit_price) (ho : 0 ≤ b.other_revenue)
    (hs : 0 ≤ s) :
    b.calc_monthly_revenue s = ⌊b.users * b.unit_price * s + b.other_revenue⌋ := by
  have hx : 0 ≤ b.users * b.unit_price * s + b.other_revenue := by positivity
  unfold Business.calc_monthly_revenue pyInt
  simp [hx]

/-- C5 witness: users=3, unit_price=10, market_score=1.05, other_revenue=0
gives monthly revenue 31 = floor(31.5). -/
theorem calc_monthly_revenue_floor_witness :
    (⟨"demo", 0, 3, 10, 0, []⟩ : Business).calc_monthly_revenue (21/20) = 31 := by
  rw [calc_monthly_revenue_floor (⟨"demo", 0, 3, 10, 0, []⟩ : Business) (21/20)
        (by norm_num) (by norm_num) (by norm_num) (by norm_num)]
  norm_num

/-- C1 counterexample: a business with initial_investment 120, zero revenue
and costs summing to 10 has monthly_profit −10 < 0, yet summary_dict reports
the finite negative payback (120 / −10) / 12 = −1 year, not +infinity. -/
theorem payback_negative_profit_counterexample :
    ((⟨"demo", 120, 0, 0, 0, [("c", 10)]⟩ : Business).summary_dict 1).monthly_profit < 0 ∧
    ((⟨"demo", 120, 0, 0, 0, [("c", 10)]⟩ : Business).summary_dict 1).payback_period ≠ ⊤ ∧
    ((⟨"demo", 120, 0, 0, 0, [("c", 10)]⟩ : Business).summary_dict 1).payback_period
      = ((-1 : ℚ) : WithTop ℚ) := by
  refine ⟨?_, ?_, ?_⟩ <;>
    norm_num [Business.summary_dict, Business.calc_monthly_revenue,
      Business.calc_monthly_cost, pyInt]

/-- C1 amended: summary_dict reports payback_period as +infinity exactly when
monthly_profit is 0; for a negative monthly_profit the reported payback is the
finite (negative) value (initial_investment / monthly_profit) / 12. -/
theorem payback_top_iff (b : Business) (s : ℚ) :
    (b.summary_dict s).payback_period = ⊤ ↔
      (b.summary_dict s).monthly_profit = 0 := by
  unfold Business.summary_dict
  dsimp only
  split_ifs with h
  · simp [h]
  · simp at h
    simp [h]

/-- C8: for every zoning category present in the permission table and every
proposed floor area, a business type is permitted iff its configured maximum
floor area is at least the proposed area (inclusive bound). -/
theorem check_building_permissions_iff (s : String) (tbl : Biz → WithTop ℚ)
    (area : ℚ) (b : Biz) (h : lookup s permissions = some tbl) :
    b ∈ check_building_permissions (some s) area ↔
      (area : WithTop ℚ) ≤ tbl b := by
  show (b ∈ match lookup s permissions with
    | none => []
    | some tbl =>
      bizList.filter (fun b => decide ((area : WithTop ℚ) ≤ tbl b))) ↔ _
  rw [h]
  cases b <;> simp [bizList, List.mem_filter]

/-- C8 witness: in the 商業地域 category (all caps infinite), a 5000 m² cafe
is permitted. -/
theorem check_building_permissions_iff_witness :
    Biz.cafe ∈ check_building_permissions (some "商業地域") 5000 :=
  (check_building_permissions_iff "商業地域" (caps ⊤ ⊤ ⊤) 5000 .cafe rfl).mpr
    (by simp [caps])

/-- C10: a zoning category that is not a key of the permission table — the
None of a failed zoning lookup included — yields the empty permission list
rather than an exception. -/
theorem check_building_permissions_unknown (area : ℚ) :
    check_building_permissions none area = [] ∧
    ∀ s : String, lookup s permissions = none →
      check_building_permissions (some s) area = [] := by
  refine ⟨rfl, fun s hs => ?_⟩
  show (match lookup s permissions with
    | none => []
    | some tbl =>
      bizList.filter (fun b => decide ((area : WithTop ℚ) ≤ tbl b))) = []
  rw [hs]

/-- C10 witness: the unknown category string "foo" permits nothing at area
100. -/
theorem check_building_permissions_unknown_witness :
    check_building_permissions (some "foo") 100 = [] :=
  (check_building_permissions_unknown 100).2 "foo" rfl

/-- C9: calculate is deterministic — two MarketFactors values with equal
fields and the same business type yield equal scores, and the embedding is a
pure function of its inputs and the static tables. -/
theorem calculate_deterministic (f g : MarketFactors) (business_type : String)
    (h1 : f.area_type = g.area_type) (h2 : f.factors = g.factors)
    (h3 : f.epsilon = g.epsilon) :
    calculate f business_type = calculate g business_type := by
  cases f
  cases g
  cases h1
  cases h2
  cases h3
  rfl

/-- C9 witness: two syntactically different but equal inputs score equally. -/
theorem calculate_deterministic_witness :
    calculate ⟨"kamakura", [("population", 100)], 0⟩ "cafe"
      = calculate ⟨"kamakura", [("population", 50 + 50)], 0⟩ "cafe" :=
  calculate_deterministic ⟨"kamakura", [("population", 100)], 0⟩
    ⟨"kamakura", [("population", 50 + 50)], 0⟩ "cafe" rfl (by norm_num) rfl

/-- Helper: when the area's range dict is present and the factor's reference
maximum is configured positive, _normalize_factor succeeds and agrees with the
total spec-side normalization. -/
theorem normalize_factor_eq_spec (area_type factor_name : String)
    (ranges : List (String × ℚ)) (v : ℚ)
    (hr : lookup area_type FACTOR_RANGES = some ranges)
    (hm : 0 < (lookup factor_name ranges).getD 0) :
    normalize_factor area_type factor_name v
      = .ok (normalize_spec area_type factor_name v) := by
  obtain ⟨m, hf1, hmpos⟩ : ∃ m, lookup factor_name ranges = some m ∧ 0 < m := by
    cases h : lookup factor_name ranges with
    | none => rw [h] at hm; simp at hm
    | some m => rw [h] at hm; simp at hm; exact ⟨m, rfl, hm⟩
  have hm0 : m ≠ 0 := ne_of_gt hmpos
  unfold normalize_factor normalize_spec
  rw [hr]
  simp only [Option.some_bind, hf1, Option.getD_some]
  by_cases hf : factor_name = "distance_from_station"
  · by_cases hv : v < m
    · simp [hf, hv, hm0]
    · simp [hf, hv]
  · simp [hf, hm0]

/-- Helper: _normalize_factor succeeds whenever the area's range dict is
present, the value is non-negative, and — for a non-distance factor — the
reference maximum is nonzero. -/
theorem normalize_factor_ok (area_type factor_name : String)
    (ranges : List (String × ℚ)) (v : ℚ)
    (hr : lookup area_type FACTOR_RANGES = some ranges)
    (hv : 0 ≤ v)
    (hmax : factor_name ≠ "distance_from_station" →
      (lookup factor_name ranges).getD 0 ≠ 0) :
    ∃ n, normalize_factor area_type factor_name v = .ok n := by
  unfold normalize_factor
  rw [hr]
  dsimp only
  split_ifs with hf hv2 hm0 hm0
  · exfalso
    rw [hm0] at hv2
    linarith
  · exact ⟨_, rfl⟩
  · exact ⟨0, rfl⟩
  · exact absurd hm0 (hmax hf)
  · exact ⟨_, rfl⟩

/-- Helper: the generator sum succeeds when every normalization succeeds. -/
theorem weighted_sum_ok (area_type : String) (ws : List (String × ℚ))
    (l : List (String × ℚ))
    (h : ∀ fv ∈ l, ∃ n, normalize_factor area_type fv.1 fv.2 = .ok n) :
    ∃ q, weighted_sum area_type ws l = .ok q := by
  induction l with
  | nil => exact ⟨0, rfl⟩
  | cons fv rest ih =>
    obtain ⟨n, hn⟩ := h fv (List.mem_cons_self fv rest)
    obtain ⟨q, hq⟩ := ih (fun x hx => h x (List.mem_cons_of_mem fv hx))
    refine ⟨(lookup fv.1 ws).getD 0 * n + q, ?_⟩
    simp [weighted_sum, hn, hq]

/-- C2 counterexample: the unknown area_type "tokyo" makes calculate raise
KeyError through the bracket indexing of WEIGHTS, refuting the claim that
score returns normally for every AreaFactors value. -/
theorem calculate_unknown_area_counterexample :
    calculate ⟨"tokyo", [("population", 100)], 0⟩ "cafe"
      = .error .keyError := rfl

/-- C2 amended: score returns normally — an unknown business type degrading to
zero weights and a missing distance reference to a zero contribution —
provided the area_type is a key of both static tables, the factor values are
non-negative, and every supplied non-distance factor has a nonzero reference
maximum; an unknown area_type instead raises KeyError and a non-distance
factor without a reference maximum raises ZeroDivisionError. -/
theorem calculate_ok (factors : MarketFactors) (business_type : String)
    (wt : List (String × List (String × ℚ))) (ranges : List (String × ℚ))
    (hw : lookup factors.area_type WEIGHTS = some wt)
    (hr : lookup factors.area_type FACTOR_RANGES = some ranges)
    (hv : ∀ fv ∈ factors.factors, 0 ≤ fv.2)
    (hmax : ∀ fv ∈ factors.factors, fv.1 ≠ "distance_from_station" →
      (lookup fv.1 ranges).getD 0 ≠ 0) :
    ∃ q, calculate factors business_type = .ok q := by
  obtain ⟨q, hq⟩ := weighted_sum_ok factors.area_type
    ((lookup business_type wt).getD []) factors.factors
    (fun fv hfv => normalize_factor_ok factors.area_type fv.1 ranges fv.2 hr
      (hv fv hfv) (hmax fv hfv))
  refine ⟨q + factors.epsilon, ?_⟩
  unfold calculate
  rw [hw]
  simp [hq, Except.map]

/-- C2 witness: a fully configured kamakura call succeeds. -/
theorem calculate_ok_witness :
    ∃ q, calculate
      ⟨"kamakura", [("population", 4000), ("distance_from_station", 800)], 0.5⟩
      "cafe" = .ok q :=
  calculate_ok
    ⟨"kamakura", [("population", 4000), ("distance_from_station", 800)], 0.5⟩
    "cafe" _ _ rfl rfl (by decide) (by decide)

/-- Helper: when every normalization succeeds with its spec-side value, the
generator sum computes the weighted sum of spec-side normalized values. -/
theorem weighted_sum_eq (area_type : String) (ws : List (String × ℚ))
    (l : List (String × ℚ))
    (h : ∀ fv ∈ l, normalize_factor area_type fv.1 fv.2
      = .ok (normalize_spec area_type fv.1 fv.2)) :
    weighted_sum area_type ws l
      = .ok ((l.map (fun fv => (lookup fv.1 ws).getD 0
          * normalize_spec area_type fv.1 fv.2)).sum) := by
  induction l with
  | nil => rfl
  | cons fv rest ih =>
    have hn := h fv (List.mem_cons_self fv rest)
    have hrest := ih (fun x hx => h x (List.mem_cons_of_mem fv hx))
    simp [weighted_sum, hn, hrest]

/-- C4: with the area_type configured and every supplied factor carrying a
positive reference maximum, calculate returns exactly the sum over the
supplied factors of weight (defaulting to 0 for an unconfigured business
type) times normalized value, plus epsilon; consequently, when those weights
sum to 1, epsilon is 0, and every supplied factor normalizes to 1, the score
is exactly 1. -/
theorem calculate_eq_score_spec (factors : MarketFactors)
    (business_type : String)
    (wt : List (String × List (String × ℚ))) (ranges : List (String × ℚ))
    (hw : lookup factors.area_type WEIGHTS = some wt)
    (hr : lookup factors.area_type FACTOR_RANGES = some ranges)
    (hm : ∀ fv ∈ factors.factors, 0 < (lookup fv.1 ranges).getD 0) :
    calculate factors business_type = .ok (score_spec factors business_type) ∧
    (factors.epsilon = 0 →
      (factors.factors.map (fun fv =>
        weight_of factors.area_type business_type fv.1)).sum = 1 →
      (∀ fv ∈ factors.factors,
        normalize_spec factors.area_type fv.1 fv.2 = 1) →
      calculate factors business_type = .ok 1) := by
  have hwf : (fun fv : String × ℚ =>
      (lookup fv.1 ((lookup business_type wt).getD [])).getD 0
        * normalize_spec factors.area_type fv.1 fv.2)
      = (fun fv : String × ℚ =>
        weight_of factors.area_type business_type fv.1
          * normalize_spec factors.area_type fv.1 fv.2) := by
    funext fv
    unfold weight_of
    rw [hw]
    rfl
  have hmain : calculate factors business_type
      = .ok (score_spec factors business_type) := by
    unfold calculate
    rw [hw]
    dsimp only
    rw [weighted_sum_eq factors.area_type _ factors.factors
      (fun fv hfv => normalize_factor_eq_spec factors.area_type fv.1 ranges
        fv.2 hr (hm fv hfv))]
    unfold score_spec
    rw [hwf]
    rfl
  refine ⟨hmain, fun heps hsum hnorm => ?_⟩
  rw [hmain]
  unfold score_spec
  rw [heps, add_zero,
    List.map_congr_left (fun fv hfv => by rw [hnorm fv hfv, mul_one]), hsum]

/-- C4 witness: on kamakura / cafe with factor rows whose weights sum to 1,
whose values normalize to 1, and epsilon 0, the computed score is exactly 1
(population weight 0.4 twice plus distance weight 0.2). -/
theorem calculate_eq_score_spec_witness :
    calculate ⟨"kamakura",
      [("population", 5000), ("population", 5000), ("distance_from_station", 0)],
      0⟩ "cafe" = .ok 1 :=
  (calculate_eq_score_spec ⟨"kamakura",
      [("population", 5000), ("population", 5000), ("distance_from_station", 0)],
      0⟩ "cafe" _ _ rfl rfl (by decide)).2 rfl
    (by simp [weight_of, WEIGHTS, lookup]; norm_num)
    (by simp [normalize_spec, FACTOR_RANGES, lookup])

/-- C7: with a positive reference maximum configured for the factor, every
non-negative raw value normalizes into [0,1], and the distance normalization
is monotonically non-increasing in the raw value. -/
theorem normalize_factor_bounds (area_type factor_name : String)
    (ranges : List (String × ℚ))
    (hr : lookup area_type FACTOR_RANGES = some ranges)
    (hm : 0 < (lookup factor_name ranges).getD 0) :
    (∀ v : ℚ, 0 ≤ v → ∃ n, normalize_factor area_type factor_name v = .ok n
      ∧ 0 ≤ n ∧ n ≤ 1) ∧
    (factor_name = "distance_from_station" →
      ∀ v₁ v₂ n₁ n₂ : ℚ, v₁ ≤ v₂ →
        normalize_factor area_type factor_name v₁ = .ok n₁ →
        normalize_factor area_type factor_name v₂ = .ok n₂ → n₂ ≤ n₁) := by
  obtain ⟨m, hf1, hmpos⟩ : ∃ m, lookup factor_name ranges = some m ∧ 0 < m := by
    cases h : lookup factor_name ranges with
    | none => rw [h] at hm; simp at hm
    | some m => rw [h] at hm; simp at hm; exact ⟨m, rfl, hm⟩
  have hspec : ∀ v : ℚ, normalize_factor area_type factor_name v
      = .ok (normalize_spec area_type factor_name v) :=
    fun v => normalize_factor_eq_spec area_type factor_name ranges v hr hm
  have hspec_val : ∀ v : ℚ, normalize_spec area_type factor_name v
      = if factor_name = "distance_from_station" then
          (if v < m then max 0 (1 - v / m) else 0)
        else min 1 (v / m) := by
    intro v
    unfold normalize_spec
    rw [hr]
    simp [hf1]
  constructor
  · intro v hv
    refine ⟨normalize_spec area_type factor_name v, hspec v, ?_⟩
    rw [hspec_val]
    have hdiv : 0 ≤ v / m := div_nonneg hv (le_of_lt hmpos)
    by_cases hf : factor_name = "distance_from_station"
    · simp only [hf, if_pos]
      by_cases hvm : v < m
      · rw [if_pos hvm]
        exact ⟨le_max_left 0 _, max_le (by norm_num) (by linarith)⟩
      · rw [if_neg hvm]
        norm_num
    · rw [if_neg hf]
      exact ⟨le_min (by norm_num) hdiv, min_le_left 1 _⟩
  · intro hf v₁ v₂ n₁ n₂ h12 e₁ e₂
    rw [hspec v₁] at e₁
    rw [hspec v₂] at e₂
    have hn₁ : n₁ = normalize_spec area_type factor_name v₁ :=
      (Except.ok.injEq _ _).mp e₁.symm
    have hn₂ : n₂ = normalize_spec area_type factor_name v₂ :=
      (Except.ok.injEq _ _).mp e₂.symm
    rw [hn₁, hn₂, hspec_val, hspec_val]
    simp only [hf, if_pos]
    have hdivle : v₁ / m ≤ v₂ / m := by gcongr
    by_cases h2 : v₂ < m
    · have h1 : v₁ < m := lt_of_le_of_lt h12 h2
      rw [if_pos h1, if_pos h2]
      exact max_le_max (le_refl 0) (by linarith)
    · rw [if_neg h2]
      by_cases h1 : v₁ < m
      · rw [if_pos h1]
        exact le_max_left 0 _
      · rw [if_neg h1]

/-- C7 witness: a 1600 m distance in kamakura normalizes to a value in
[0,1]. -/
theorem normalize_factor_bounds_witness :
    ∃ n, normalize_factor "kamakura" "distance_from_station" 1600 = .ok n
      ∧ 0 ≤ n ∧ n ≤ 1 :=
  (normalize_factor_bounds "kamakura" "distance_from_station"
    [("population", 5000), ("distance_from_station", 3200)]
    rfl (by decide)).1 1600 (by norm_num)

/-- Helper: the running best only grows along a pyMaxBy scan. -/
theorem pyMaxBy_le_key {α β : Type} [LinearOrder β] (key : α → β) (a : α)
    (l : List α) : key a ≤ key (pyMaxBy key a l) := by
  induction l generalizing a with
  | nil => exact le_refl _
  | cons x xs ih =>
    show key a ≤ key (pyMaxBy key (if key a < key x then x else a) xs)
    refine le_trans ?_ (ih (if key a < key x then x else a))
    split_ifs with h
    · exact le_of_lt h
    · exact le_refl _

/-- Helper: the pyMaxBy result is an element of the scanned list. -/
theorem pyMaxBy_mem {α β : Type} [LinearOrder β] (key : α → β) (a : α)
    (l : List α) : pyMaxBy key a l ∈ a :: l := by
  induction l generalizing a with
  | nil => exact List.mem_singleton.mpr rfl
  | cons x xs ih =>
    show pyMaxBy key (if key a < key x then x else a) xs ∈ a :: x :: xs
    rcases List.mem_cons.mp (ih (if key a < key x then x else a)) with h1 | h1
    · rw [h1]
      split_ifs with hc
      · exact List.mem_cons_of_mem a (List.mem_cons_self x xs)
      · exact List.mem_cons_self a (x :: xs)
    · exact List.mem_cons_of_mem a (List.mem_cons_of_mem x h1)

/-- Helper: the pyMaxBy result dominates every element of the scan. -/
theorem pyMaxBy_isMax {α β : Type} [LinearOrder β] (key : α → β) (a : α)
    (l : List α) : ∀ y ∈ a :: l, key y ≤ key (pyMaxBy key a l) := by
  induction l generalizing a with
  | nil =>
    intro y hy
    rw [List.mem_singleton.mp hy]
    exact le_refl _
  | cons x xs ih =>
    intro y hy
    show key y ≤ key (pyMaxBy key (if key a < key x then x else a) xs)
    have hb : key a ⊔ key x ≤ key (if key a < key x then x else a) := by
      split_ifs with hc
      · exact sup_le (le_of_lt hc) (le_refl _)
      · exact sup_le (le_refl _) (le_of_not_lt hc)
    have hrec := pyMaxBy_le_key key (if key a < key x then x else a) xs
    rcases List.mem_cons.mp hy with h1 | h1
    · rw [h1]
      exact le_trans (le_trans le_sup_left hb) hrec
    · rcases List.mem_cons.mp h1 with h2 | h2
      · rw [h2]
        exact le_trans (le_trans le_sup_right hb) hrec
      · exact ih (if key a < key x then x else a) y (List.mem_cons_of_mem _ h2)

/-- Helper: find? resolves at the head when the predicate holds there. -/
theorem find?_head {α : Type} (p : α → Bool) (a : α) (l : List α)
    (h : p a = true) : List.find? p (a :: l) = some a :=
  List.find?_cons_of_pos l h

/-- Helper: find? skips the head when the predicate fails there. -/
theorem find?_tail {α : Type} (p : α → Bool) (a : α) (l : List α)
    (h : ¬p a = true) : List.find? p (a :: l) = List.find? p l :=
  List.find?_cons_of_neg l h

/-- Helper: pyMaxBy returns the first element of the scan satisfying any
Boolean test equivalent to attaining the maximum key (Python
tie-breaking). -/
theorem pyMaxBy_first {α β : Type} [LinearOrder β] (key : α → β)
    (p : α → Bool) (a : α) (l : List α)
    (hp : ∀ y, p y = true ↔ key (pyMaxBy key a l) ≤ key y) :
    (a :: l).find? p = some (pyMaxBy key a l) := by
  induction l generalizing a with
  | nil => exact find?_head p a [] ((hp a).mpr (le_refl _))
  | cons x xs ih =>
    have hstep : pyMaxBy key a (x :: xs)
        = pyMaxBy key (if key a < key x then x else a) xs := rfl
    rw [hstep] at hp ⊢
    by_cases hc : key a < key x
    · rw [if_pos hc] at hp ⊢
      have hpa : ¬p a = true := by
        rw [hp a]
        exact not_le.mpr (lt_of_lt_of_le hc (pyMaxBy_le_key key x xs))
      rw [find?_tail p a (x :: xs) hpa]
      exact ih x hp
    · rw [if_neg hc] at hp ⊢
      have iha := ih a hp
      by_cases hpa : key (pyMaxBy key a xs) ≤ key a
      · have hptrue : p a = true := (hp a).mpr hpa
        rw [find?_head p a xs hptrue] at iha
        rw [find?_head p a (x :: xs) hptrue]
        exact iha
      · have hpa' : ¬p a = true := by
          rw [hp a]
          exact hpa
        have hpx : ¬p x = true := by
          rw [hp x]
          exact not_le.mpr (lt_of_le_of_lt (le_of_not_lt hc) (lt_of_not_le hpa))
        rw [find?_tail p a xs hpa'] at iha
        rw [find?_tail p a (x :: xs) hpa', find?_tail p x xs hpx]
        exact iha

/-- Helper: the running best only shrinks along a pyMinBy scan. -/
theorem pyMinBy_key_le {α β : Type} [LinearOrder β] (key : α → β) (a : α)
    (l : List α) : key (pyMinBy key a l) ≤ key a := by
  induction l generalizing a with
  | nil => exact le_refl _
  | cons x xs ih =>
    show key (pyMinBy key (if key x < key a then x else a) xs) ≤ key a
    refine le_trans (ih (if key x < key a then x else a)) ?_
    split_ifs with h
    · exact le_of_lt h
    · exact le_refl _

/-- Helper: the pyMinBy result is an element of the scanned list. -/
theorem pyMinBy_mem {α β : Type} [LinearOrder β] (key : α → β) (a : α)
    (l : List α) : pyMinBy key a l ∈ a :: l := by
  induction l generalizing a with
  | nil => exact List.mem_singleton.mpr rfl
  | cons x xs ih =>
    show pyMinBy key (if key x < key a then x else a) xs ∈ a :: x :: xs
    rcases List.mem_cons.mp (ih (if key x < key a then x else a)) with h1 | h1
    · rw [h1]
      split_ifs with hc
      · exact List.mem_cons_of_mem a (List.mem_cons_self x xs)
      · exact List.mem_cons_self a (x :: xs)
    · exact List.mem_cons_of_mem a (List.mem_cons_of_mem x h1)

/-- Helper: the pyMinBy result is below every element of the scan. -/
theorem pyMinBy_isMin {α β : Type} [LinearOrder β] (key : α → β) (a : α)
    (l : List α) : ∀ y ∈ a :: l, key (pyMinBy key a l) ≤ key y := by
  induction l generalizing a with
  | nil =>
    intro y hy
    rw [List.mem_singleton.mp hy]
    exact le_refl _
  | cons x xs ih =>
    intro y hy
    show key (pyMinBy key (if key x < key a then x else a) xs) ≤ key y
    have hb : key (if key x < key a then x else a) ≤ key a ⊓ key x := by
      split_ifs with hc
      · exact le_inf (le_of_lt hc) (le_refl _)
      · exact le_inf (le_refl _) (le_of_not_lt hc)
    have hrec := pyMinBy_key_le key (if key x < key a then x else a) xs
    rcases List.mem_cons.mp hy with h1 | h1
    · rw [h1]
      exact le_trans hrec (le_trans hb inf_le_left)
    · rcases List.mem_cons.mp h1 with h2 | h2
      · rw [h2]
        exact le_trans hrec (le_trans hb inf_le_right)
      · exact ih (if key x < key a then x else a) y (List.mem_cons_of_mem _ h2)

/-- Helper: pyMinBy returns the first element of the scan satisfying any
Boolean test equivalent to attaining the minimum key (Python
tie-breaking). -/
theorem pyMinBy_first {α β : Type} [LinearOrder β] (key : α → β)
    (p : α → Bool) (a : α) (l : List α)
    (hp : ∀ y, p y = true ↔ key y ≤ key (pyMinBy key a l)) :
    (a :: l).find? p = some (pyMinBy key a l) := by
  induction l generalizing a with
  | nil => exact find?_head p a [] ((hp a).mpr (le_refl _))
  | cons x xs ih =>
    have hstep : pyMinBy key a (x :: xs)
        = pyMinBy key (if key x < key a then x else a) xs := rfl
    rw [hstep] at hp ⊢
    by_cases hc : key x < key a
    · rw [if_pos hc] at hp ⊢
      have hpa : ¬p a = true := by
        rw [hp a]
        exact not_le.mpr (lt_of_le_of_lt (pyMinBy_key_le key x xs) hc)
      rw [find?_tail p a (x :: xs) hpa]
      exact ih x hp
    · rw [if_neg hc] at hp ⊢
      have iha := ih a hp
      by_cases hpa : key a ≤ key (pyMinBy key a xs)
      · have hptrue : p a = true := (hp a).mpr hpa
        rw [find?_head p a xs hptrue] at iha
        rw [find?_head p a (x :: xs) hptrue]
        exact iha
      · have hpa' : ¬p a = true := by
          rw [hp a]
          exact hpa
        have hpx : ¬p x = true := by
          rw [hp x]
          exact not_le.mpr (lt_of_lt_of_le (lt_of_not_le hpa) (le_of_not_lt hc))
        rw [find?_tail p a xs hpa'] at iha
        rw [find?_tail p a (x :: xs) hpa', find?_tail p x xs hpx]
        exact iha

/-- C3 counterexample: two records with exact profit ratios 5.01 and 5.04
both display as "5.0%", so the selection key is equal and the scan keeps the
first record — best_profit returns the record whose exact
profit_ratio_percent is NOT maximal. -/
theorem selector_rounding_counterexample :
    best_profit
        [⟨"r1", 1, 100, 0, 0, 0, 501/100, ((3 : ℚ) : WithTop ℚ)⟩,
         ⟨"r2", 1, 100, 0, 0, 0, 126/25, ((3 : ℚ) : WithTop ℚ)⟩]
      = some ⟨"r1", 1, 100, 0, 0, 0, 501/100, ((3 : ℚ) : WithTop ℚ)⟩ ∧
    (⟨"r1", 1, 100, 0, 0, 0, 501/100, ((3 : ℚ) : WithTop ℚ)⟩ :
        Summary).profit_ratio_percent
      < (⟨"r2", 1, 100, 0, 0, 0, 126/25, ((3 : ℚ) : WithTop ℚ)⟩ :
        Summary).profit_ratio_percent := by
  constructor
  · have h : ¬(round_fixed 1 ((501 : ℚ)/100) < round_fixed 1 ((126 : ℚ)/25)) := by
      norm_num [round_fixed, roundHalfEven]
    simp [best_profit, pyMaxBy, profit_key, h]
  · norm_num

/-- C3 amended: on a non-empty result list, best_profit is the record whose
profit_ratio_percent rounded to 1 decimal (the displayed "5.0%" value that
line 309 compares) is maximal and best_payback the record whose
payback_period rounded to 2 decimals (line 310) is minimal, ties under the
rounded keys broken by input order — each selection is the first element
whose rounded key attains the optimum. -/
theorem selector_first_best_rounded (r : Summary) (rs : List Summary) :
    (∃ bp, best_profit (r :: rs) = some bp ∧ bp ∈ r :: rs ∧
      (∀ y ∈ r :: rs, profit_key y ≤ profit_key bp) ∧
      (r :: rs).find? (fun y => decide (profit_key bp ≤ profit_key y))
        = some bp) ∧
    (∃ bq, best_payback (r :: rs) = some bq ∧ bq ∈ r :: rs ∧
      (∀ y ∈ r :: rs, payback_key bq ≤ payback_key y) ∧
      (r :: rs).find? (fun y => decide (payback_key y ≤ payback_key bq))
        = some bq) := by
  constructor
  · exact ⟨pyMaxBy profit_key r rs, rfl,
      pyMaxBy_mem profit_key r rs,
      pyMaxBy_isMax profit_key r rs,
      pyMaxBy_first profit_key _ r rs (fun y => by rw [decide_eq_true_eq])⟩
  · exact ⟨pyMinBy payback_key r rs, rfl,
      pyMinBy_mem payback_key r rs,
      pyMinBy_isMin payback_key r rs,
      pyMinBy_first payback_key _ r rs (fun y => by rw [decide_eq_true_eq])⟩

end Akiya
